import Mathlib

/-!
Verification of the datasette request-to-SQL core (src/datasette/app.py and
src/datasette/utils.py) against its natural-language specification.

The Python source is shallowly embedded: pure helpers become Lean functions,
Python exceptions become an explicit `Except PyErr` result, the progress-handler
state of a database connection becomes an explicit record threaded through the
model of `execute`, and Python byte strings (for the percent-encoding cursor
codec) become `List Nat` with every element below 256.  Each definition carries
a doc comment citing the source lines it embeds.
-/

set_option maxRecDepth 4000
set_option maxHeartbeats 1000000

/-- Python exception kinds raised by the embedded code paths: `InvalidSql`
(utils.py 106-115), `KeyError` from a dict lookup miss (utils.py 50),
`sqlite3.OperationalError` raised by the engine, and `IndexError` from
`value[0]` on an empty list (app.py 345/347). -/
inductive PyErr where
  | invalidSql (msg : String)
  | keyError (key : String)
  | operationalError (msg : String)
  | indexError (msg : String)
deriving DecidableEq

/-- app.py 145-157: `view_get` converts only `sqlite3.OperationalError` and
`InvalidSql` into the structured 400 error payload; any other exception
propagates out of the handler uncaught. -/
def view_get_catches : PyErr → Bool
  | .operationalError _ => true
  | .invalidSql _ => true
  | _ => false

/-! ### Character and string helpers (ASCII model of the Python string ops) -/

/-- Python `s.startswith(pat)` on character lists. -/
def startsWithList : List Char → List Char → Bool
  | _, [] => true
  | [], _ :: _ => false
  | a :: as, b :: bs => decide (a = b) && startsWithList as bs

/-- Python `pat in s` (substring containment) on character lists. -/
def containsSub (s pat : List Char) : Bool :=
  match s with
  | [] => startsWithList [] pat
  | _ :: rest => startsWithList s pat || containsSub rest pat

/-- Python `str.isspace` members relevant to `str.strip()`:
space, tab, newline, carriage return, vertical tab, form feed. -/
def pySpace (c : Char) : Bool :=
  decide (c.toNat = 32) || decide (c.toNat = 9) || decide (c.toNat = 10) ||
  decide (c.toNat = 13) || decide (c.toNat = 11) || decide (c.toNat = 12)

/-- Python `s.strip()`: drop whitespace from both ends. -/
def pyStrip (cs : List Char) : List Char :=
  ((cs.dropWhile pySpace).reverse.dropWhile pySpace).reverse

/-- Python `s.lower()` restricted to ASCII letters (the only characters the
validator compares against). -/
def pyLowerChar (c : Char) : Char :=
  if 65 ≤ c.toNat ∧ c.toNat ≤ 90 then Char.ofNat (c.toNat + 32) else c

/-- ASCII digit test, the model of Python `str.isdigit` on URL values. -/
def isAsciiDigit (c : Char) : Bool := decide (48 ≤ c.toNat ∧ c.toNat ≤ 57)

/-- Python `s.isdigit()`: nonempty and all digits. -/
def pyIsdigit (s : String) : Bool :=
  !s.toList.isEmpty && s.toList.all isAsciiDigit

/-- Python `int(s)` on an all-digit string: decimal value. -/
def parsePyInt (s : String) : Int :=
  Int.ofNat (s.toList.foldl (fun acc c => acc * 10 + (c.toNat - 48)) 0)

/-! ### Python `sorted` on (key, value) string pairs -/

/-- Strict lexicographic order on character lists (Python `<` on strings,
comparing code points). -/
def chLt : List Char → List Char → Bool
  | [], [] => false
  | [], _ :: _ => true
  | _ :: _, [] => false
  | a :: as, b :: bs => if a < b then true else if a = b then chLt as bs else false

/-- Python `a < b` on strings. -/
def strLtB (a b : String) : Bool := chLt a.toList b.toList

/-- Python `a <= b` on strings. -/
def strLeB (a b : String) : Bool := strLtB a b || decide (a = b)

/-- Python tuple comparison `(k1, v1) <= (k2, v2)` used by
`sorted(args.items())` (utils.py 33). -/
def pairLeB (x y : String × String) : Bool :=
  strLtB x.1 y.1 || (decide (x.1 = y.1) && strLeB x.2 y.2)

/-- Insert into a pair-sorted list (the embedding of Python's stable
ascending sort, specialised to insertion sort). -/
def insertPair (x : String × String) : List (String × String) → List (String × String)
  | [] => [x]
  | y :: ys => if pairLeB x y then x :: y :: ys else y :: insertPair x ys

/-- Python `sorted(args.items())` (utils.py 33). -/
def sortPairs : List (String × String) → List (String × String)
  | [] => []
  | x :: xs => insertPair x (sortPairs xs)

/-- Insert into a string-sorted list. -/
def insertStr (x : String) : List String → List String
  | [] => [x]
  | y :: ys => if strLeB x y then x :: y :: ys else y :: insertStr x ys

/-- Ascending sort of a list of strings (lexicographic sorting of the keys,
as the spec phrases the parameter ranks). -/
def sortStrings : List String → List String
  | [] => []
  | x :: xs => insertStr x (sortStrings xs)

/-! ### utils.build_where_clauses (utils.py 30-65) -/

/-- SQL parameter values: Python binds either the (possibly transformed)
string or, for numeric operators on all-digit strings, an int (utils.py 58-59). -/
inductive SqlVal where
  | s (v : String)
  | i (v : Int)
deriving DecidableEq

/-- Index of the start of the last occurrence of `__` in the key, if any
(the split point of Python `key.rsplit('__', 1)`, utils.py 34-35). -/
def lastDunderIdx (cs : List Char) : Option Nat :=
  (List.range cs.length).foldl
    (fun acc i =>
      if cs.get? i = some '_' ∧ cs.get? (i + 1) = some '_' then some i else acc)
    none

/-- utils.py 34-38: split the key on the last `__` into (column, lookup);
when `__` is absent the lookup defaults to `exact`. -/
def splitOnLastDunder (key : String) : String × String :=
  let cs := key.toList
  match lastDunderIdx cs with
  | some i => (⟨cs.take i⟩, ⟨cs.drop (i + 2)⟩)
  | none => (key, "exact")

/-- utils.py 39-50: the template dict; `none` models the `KeyError` a missing
lookup raises.  Each template renders the double-quoted column and the
`:pN` parameter reference. -/
def lookupTemplate (lookup : String) : Option (String → String → String) :=
  if lookup = "exact" then some (fun c p => "\"" ++ c ++ "\" = :" ++ p)
  else if lookup = "contains" then some (fun c p => "\"" ++ c ++ "\" like :" ++ p)
  else if lookup = "endswith" then some (fun c p => "\"" ++ c ++ "\" like :" ++ p)
  else if lookup = "startswith" then some (fun c p => "\"" ++ c ++ "\" like :" ++ p)
  else if lookup = "gt" then some (fun c p => "\"" ++ c ++ "\" > :" ++ p)
  else if lookup = "gte" then some (fun c p => "\"" ++ c ++ "\" >= :" ++ p)
  else if lookup = "lt" then some (fun c p => "\"" ++ c ++ "\" < :" ++ p)
  else if lookup = "lte" then some (fun c p => "\"" ++ c ++ "\" <= :" ++ p)
  else if lookup = "glob" then some (fun c p => "\"" ++ c ++ "\" glob :" ++ p)
  else if lookup = "like" then some (fun c p => "\"" ++ c ++ "\" like :" ++ p)
  else none

/-- utils.py 51: the numeric operators. -/
def numericOperator (lookup : String) : Bool :=
  lookup = "gt" || lookup = "gte" || lookup = "lt" || lookup = "lte"

/-- utils.py 52-57: the per-lookup value transform (`%` wrapping for
contains/endswith/startswith, identity otherwise). -/
def value_convert (lookup : String) (s : String) : String :=
  if lookup = "contains" then "%" ++ s ++ "%"
  else if lookup = "endswith" then "%" ++ s
  else if lookup = "startswith" then s ++ "%"
  else s

/-- The loop body of utils.py 33-64 over the already-sorted items, carrying
the enumeration index `i`: builds the clause list and parameter list in
iteration order; a missing lookup aborts with `KeyError` exactly as the dict
subscript does. -/
def bwcLoop : Nat → List (String × String) → Except PyErr (List String × List (String × SqlVal))
  | _, [] => .ok ([], [])
  | i, (key, value) :: rest =>
    let cl := splitOnLastDunder key
    match lookupTemplate cl.2 with
    | none => .error (.keyError cl.2)
    | some tmpl =>
      let conv := value_convert cl.2 value
      let cval : SqlVal :=
        if numericOperator cl.2 && pyIsdigit conv then .i (parsePyInt conv) else .s conv
      let pid := "p" ++ toString i
      match bwcLoop (i + 1) rest with
      | .error e => .error e
      | .ok br => .ok (tmpl cl.1 pid :: br.1, (pid, cval) :: br.2)

/-- utils.py 30-65: `build_where_clauses(args)` — sort the items, then run the
enumerated loop; returns `(sql_bits, params)`. -/
def build_where_clauses (args : List (String × String)) :
    Except PyErr (List String × List (String × SqlVal)) :=
  bwcLoop 0 (sortPairs args)

/-! ### utils.validate_sql_select (utils.py 110-115) -/

/-- utils.py 110-115: strip and lowercase, require the literal prefix
`select ` (space-terminated), and reject any occurrence of `pragma`. -/
def validate_sql_select (sql : String) : Except PyErr Unit :=
  if !startsWithList ((pyStrip sql.toList).map pyLowerChar) "select ".toList then
    .error (.invalidSql "Statement must begin with SELECT")
  else if containsSub ((pyStrip sql.toList).map pyLowerChar) "pragma".toList then
    .error (.invalidSql "Statement may not contain PRAGMA")
  else .ok ()

/-! ### The cursor codec over byte strings (utils.py 13-27)

Python `urllib.parse.quote_plus` / `unquote_plus` operate on UTF-8 bytes; we
model byte strings as `List Nat` whose elements are below 256. -/

/-- Bytes `quote_plus` leaves unescaped: ASCII alphanumerics and `_ . - ~`. -/
def isSafeByte (b : Nat) : Bool :=
  decide (48 ≤ b ∧ b ≤ 57) || decide (65 ≤ b ∧ b ≤ 90) || decide (97 ≤ b ∧ b ≤ 122) ||
  decide (b = 95) || decide (b = 46) || decide (b = 45) || decide (b = 126)

/-- Uppercase hex digit byte for a nibble (0-15). -/
def hexDigitU (n : Nat) : Nat := if n < 10 then 48 + n else 55 + n

/-- `quote_plus` on a single byte: safe bytes pass through, space becomes
`+` (byte 43), everything else becomes `%XX` with uppercase hex. -/
def quoteByte (b : Nat) : List Nat :=
  if isSafeByte b then [b]
  else if b = 32 then [43]
  else [37, hexDigitU (b / 16), hexDigitU (b % 16)]

/-- Python `urllib.parse.quote_plus` on a byte string. -/
def quote_plus (s : List Nat) : List Nat := (s.map quoteByte).flatten

/-- Hex digit test of Python's percent-decoder (accepts both cases). -/
def isHexByte (b : Nat) : Bool :=
  decide (48 ≤ b ∧ b ≤ 57) || decide (65 ≤ b ∧ b ≤ 70) || decide (97 ≤ b ∧ b ≤ 102)

/-- Value of a hex digit byte. -/
def hexVal (b : Nat) : Nat :=
  if b ≤ 57 then b - 48 else if b ≤ 70 then b - 55 else b - 87

/-- Percent-decoding as `urllib.parse.unquote` performs it: a `%` followed by
two hex digits decodes to a byte; an ill-formed escape is kept literally. -/
def percentDecode : List Nat → List Nat
  | [] => []
  | 37 :: h :: l :: rest2 =>
    if isHexByte h && isHexByte l then
      (hexVal h * 16 + hexVal l) :: percentDecode rest2
    else 37 :: percentDecode (h :: l :: rest2)
  | b :: rest => b :: percentDecode rest

/-- Python `urllib.parse.unquote_plus`: replace `+` by space, then
percent-decode. -/
def unquote_plus (s : List Nat) : List Nat :=
  percentDecode (s.map (fun b => if b = 43 then 32 else b))

/-- Python `str.split(sep)` for a single-byte separator: always yields at
least one (possibly empty) part. -/
def splitOnByte (sep : Nat) : List Nat → List (List Nat)
  | [] => [[]]
  | b :: rest =>
    let parts := splitOnByte sep rest
    if b = sep then [] :: parts
    else
      match parts with
      | p :: ps => (b :: p) :: ps
      | [] => [[b]]

/-- Python `','.join(bits)`. -/
def joinBytes (sep : Nat) : List (List Nat) → List Nat
  | [] => []
  | [p] => p
  | p :: ps => p ++ sep :: joinBytes sep ps

/-- A Python row value: a (byte) string or an int — the two value shapes the
cursor codec meets (text columns, integer columns and rowids). -/
inductive PVal where
  | str (s : List Nat)
  | int (i : Int)
deriving DecidableEq

/-- Decimal digit bytes of a natural number (most significant first); the
fuel argument bounds the recursion and `n` itself always suffices. -/
def natDecAux : Nat → Nat → List Nat
  | 0, _ => []
  | fuel + 1, n => if n = 0 then [] else natDecAux fuel (n / 10) ++ [48 + n % 10]

/-- Decimal byte string of a natural number. -/
def natDecBytes (n : Nat) : List Nat := if n = 0 then [48] else natDecAux n n

/-- Python `str(value)` for the codec's values: identity on strings, decimal
rendering (with a leading `-`, byte 45, when negative) on ints. -/
def pyStrBytes : PVal → List Nat
  | .str s => s
  | .int i => if i < 0 then 45 :: natDecBytes i.natAbs else natDecBytes i.toNat

/-- utils.py 13-16: `compound_pks_from_path` — split the path on `,`
(byte 44) and percent-decode each component. -/
def compound_pks_from_path (path : List Nat) : List (List Nat) :=
  (splitOnByte 44 path).map unquote_plus

/-- utils.py 19-27: `path_from_row_pks` — the rowid alone when `use_rowid`,
else the comma-joined, percent-encoded `str` of each primary-key value. -/
def path_from_row_pks (row : String → PVal) (pks : List String) (use_rowid : Bool) :
    List Nat :=
  if use_rowid then quote_plus (pyStrBytes (row "rowid"))
  else joinBytes 44 (pks.map fun pk => quote_plus (pyStrBytes (row pk)))

/-- Well-formed byte-string content of a row value (`List Nat` bytes must be
below 256; ints always render to such bytes). -/
def pvalWf : PVal → Prop
  | .str s => ∀ b ∈ s, b < 256
  | .int _ => True

/-! ### TableView `_after` handling (app.py 355-379) -/

/-- Strict lexicographic order on byte strings: SQLite's BINARY collation,
which `>` uses when comparing bound text values. -/
def bytesLt : List Nat → List Nat → Bool
  | [], [] => false
  | [], _ :: _ => true
  | _ :: _, [] => false
  | a :: as, b :: bs => if a < b then true else if a = b then bytesLt as bs else false

/-- SQLite text `a > b` (BINARY collation). -/
def bytesGt (a b : List Nat) : Bool := bytesLt b a

/-- app.py 364-375, the non-rowid `_after` branch: decode the cursor with
`compound_pks_from_path`; when (and only when) the component count equals the
primary-key count, one clause `"pk" > :pN` is appended per primary key, in
primary-key order, binding the decoded component — represented here as the
zipped (pk, bound value) pairs; an empty list means nothing was appended. -/
def afterClausePairs (pks : List String) (after : List Nat) :
    List (String × List Nat) :=
  let pk_values := compound_pks_from_path after
  if pk_values.length = pks.length then pks.zip pk_values else []

/-- app.py 377-379: the appended clauses are joined with ` and `, so a row
satisfies the appended WHERE predicate iff every per-pk `>` comparison holds
(vacuously true when nothing was appended). -/
def satisfiesAfterWhere (row : String → List Nat) (pks : List String)
    (after : List Nat) : Bool :=
  (afterClausePairs pks after).all fun pv => bytesGt (row pv.1) pv.2

/-- Follows the spec's words (4.6 step 6 / C1): the lexicographic order on
primary-key tuples that the cursor predicate is claimed to implement. -/
def lexTupleGt : List (List Nat) → List (List Nat) → Bool
  | a :: as, b :: bs => if bytesGt a b then true else if a = b then lexTupleGt as bs else false
  | _, _ => false

/-! ### TableView pagination (app.py 384-408) -/

/-- app.py 384-386: the generated SELECT ends in `limit page_size + 1`; this
is its effect on the table's full filtered, ordered row sequence. -/
def fetchWithLimit (allRows : List α) (page_size : Nat) : List α :=
  allRows.take (page_size + 1)

/-- app.py 397-408: from the fetched rows, the response exposes
`rows[:page_size]`, and when `len(rows) > page_size` the next-page cursor is
computed from `rows[-2]` (the second-to-last fetched row); no cursor
otherwise.  (Python `rows[-2]` would raise IndexError on fewer than two rows;
that is unreachable whenever `page_size ≥ 1`.) -/
def tablePage (rows : List α) (page_size : Nat) : List α × Option α :=
  (rows.take page_size,
   if page_size < rows.length then rows.get? (rows.length - 2) else none)

/-! ### Special/filter argument partition (app.py 338-353) -/

/-- app.py 344: a special argument starts with `_` and contains no `__`. -/
def isSpecialKey (k : String) : Bool :=
  startsWithList k.toList ['_'] && !containsSub k.toList ['_', '_']

/-- app.py 341-347: split `request.args` (a mapping from key to the list of
all supplied values) into special and other args, keeping `value[0]` only;
`value[0]` on an empty value list raises IndexError. -/
def partitionArgs :
    List (String × List String) →
    Except PyErr (List (String × String) × List (String × String))
  | [] => .ok ([], [])
  | (key, values) :: rest =>
    match values with
    | [] => .error (.indexError "list index out of range")
    | v0 :: _ =>
      match partitionArgs rest with
      | .error e => .error e
      | .ok st =>
        if isSpecialKey key then .ok ((key, v0) :: st.1, st.2)
        else .ok (st.1, (key, v0) :: st.2)

/-- Follows the claim's words (C10): the special-args entry contributed by one
request-arg item, consulting only the first value. -/
def specialOf (kv : String × List String) : Option (String × String) :=
  match kv.2 with
  | v0 :: _ => if isSpecialKey kv.1 then some (kv.1, v0) else none
  | [] => none

/-- Follows the claim's words (C10): the filter-args entry contributed by one
request-arg item, consulting only the first value. -/
def otherOf (kv : String × List String) : Option (String × String) :=
  match kv.2 with
  | v0 :: _ => if isSpecialKey kv.1 then none else some (kv.1, v0)
  | [] => none

/-! ### Slug resolution and redirects (app.py 48-55, 68-99, 130-134) -/

/-- One catalog entry: only the digest field the resolver reads. -/
structure DbInfo where
  hash : String
deriving DecidableEq

/-- Python dict lookup on the metadata mapping (unique keys). -/
def lookupDb : List (String × DbInfo) → String → Option DbInfo
  | [], _ => none
  | (k, v) :: rest, name => if k = name then some v else lookupDb rest name

/-- Python `s.rsplit(ch, 1)` when `ch` occurs in `s`: (before the last
occurrence, after it). -/
def rsplitChar (ch : Char) (cs : List Char) : List Char × List Char :=
  let rev := cs.reverse
  let afterRev := rev.takeWhile fun c => decide (c ≠ ch)
  ((rev.drop (afterRev.length + 1)).reverse, afterRev.reverse)

/-- app.py 68-99: `resolve_db_name` — split a hyphenated slug on the final
`-` into candidate name and provided hash, falling back to the whole slug
when the candidate is not in the catalog; unknown names raise NotFound
(modelled as `.error` carrying the message); a hash mismatch yields the
canonical `should_redirect` path with the table / extension / .db segments
appended. -/
def resolve_db_name (dbs : List (String × DbInfo)) (db_name : String)
    (table as_json as_db : Option String) :
    Except String (String × String × Option String) :=
  let nh : String × Option String :=
    if containsSub db_name.toList ['-'] then
      let p := rsplitChar '-' db_name.toList
      if (lookupDb dbs ⟨p.1⟩).isSome then (⟨p.1⟩, some ⟨p.2⟩)
      else (db_name, none)
    else (db_name, none)
  match lookupDb dbs nh.1 with
  | none => .error ("Database not found: " ++ nh.1)
  | some info =>
    let expected : String := ⟨info.hash.toList.take 7⟩
    if nh.2 ≠ some expected then
      let sr := "/" ++ nh.1 ++ "-" ++ expected
      let sr := match table with | some t => sr ++ "/" ++ t | none => sr
      let sr := match as_json with | some j => sr ++ j | none => sr
      let sr := match as_db with | some d => sr ++ d | none => sr
      .ok (nh.1, expected, some sr)
    else .ok (nh.1, expected, none)

/-- The observable parts of the redirect response built in app.py 48-55. -/
structure HttpResponse where
  status : Nat
  location : String
  link : String
deriving DecidableEq

/-- app.py 48-55: `BaseView.redirect` — append the original query string when
present, answer with a 302 whose `Link` header is `<target>; rel=preload`. -/
def BaseView_redirect (query_string : String) (path : String) : HttpResponse :=
  let path2 := if query_string ≠ "" then path ++ "?" ++ query_string else path
  { status := 302, location := path2, link := "<" ++ path2 ++ ">; rel=preload" }

/-- app.py 130-134: `BaseView.get` — resolve the slug, answer the redirect
when one is required, otherwise dispatch to `view_get(name, hash)`
(represented by `.inr (name, hash)`). -/
def BaseView_get (dbs : List (String × DbInfo)) (db_name : String)
    (table as_json as_db : Option String) (query_string : String) :
    Except String (HttpResponse ⊕ (String × String)) :=
  match resolve_db_name dbs db_name table as_json as_db with
  | .error m => .error m
  | .ok (_, _, some sr) => .ok (.inl (BaseView_redirect query_string sr))
  | .ok (name, hsh, none) => .ok (.inr (name, hsh))

/-- Follows the spec's words (4.5): the canonical path `/<name>-<expected>`
with the table, extension and `.db` segments appended. -/
def specCanonicalPath (name expected : String)
    (table as_json as_db : Option String) : String :=
  "/" ++ name ++ "-" ++ expected
    ++ (match table with | some t => "/" ++ t | none => "")
    ++ (match as_json with | some j => j | none => "")
    ++ (match as_db with | some d => d | none => "")

/-! ### The statement time limit (utils.py 86-103, app.py 101-128) -/

/-- The connection state the claim is about: the progress-handler slot
(`some ()` when a handler is installed, `none` after
`set_progress_handler(None, n)`). -/
structure Conn where
  progress_handler : Option Unit
deriving DecidableEq

/-- `conn.set_progress_handler(h, n)`; the instruction count `n` does not
affect the installed-or-not state being verified. -/
def set_progress_handler (_c : Conn) (h : Option Unit) (_n : Nat) : Conn :=
  { progress_handler := h }

/-- app.py 32. -/
def SQL_TIME_LIMIT_MS : Nat := 1000

/-- utils.py 86-103: `sqlite_timelimit` — install the deadline progress
handler, run the with-body, then `set_progress_handler(None, n)`.  The
generator has no try/finally around its `yield`, so Python's
`@contextmanager` protocol never resumes it when the body raises: the
handler-removal line is skipped and the error propagates with the handler
still installed.  `n` is 1000, or 1 for limits under 50 ms (utils.py 93-95). -/
def sqlite_timelimit (conn : Conn) (ms : Nat) (body : Conn → Except PyErr α) :
    Conn × Except PyErr α :=
  let n := if ms < 50 then 1 else 1000
  let conn2 := set_progress_handler conn (some ()) n
  match body conn2 with
  | .ok a => (set_progress_handler conn2 none n, .ok a)
  | .error e => (conn2, .error e)

/-- app.py 101-128: `BaseView.execute` wraps `conn.execute(sql, params)` in
`with sqlite_timelimit(conn, SQL_TIME_LIMIT_MS)`; its inner try/except only
prints and re-raises, so the error passes through unchanged. -/
def BaseView_execute (conn : Conn)
    (run : Conn → Except PyErr (List (List SqlVal))) :
    Conn × Except PyErr (List (List SqlVal)) :=
  sqlite_timelimit conn SQL_TIME_LIMIT_MS run

/-! ## Claim theorems -/

/-- C1: the claim says the `_after` predicate appended for a compound primary
key holds precisely for rows whose primary-key tuple is lexicographically
greater than the decoded cursor.  The code joins one `>` comparison per
primary key with AND, which is componentwise dominance, not the lexicographic
order: with pks `a, b`, cursor `1,5` (bytes `49 44 53`) and the row
`a = "2", b = "0"` (bytes `50` and `48`), the row is lexicographically
greater than the cursor but fails the appended predicate, so pagination
skips it.  The count-mismatch half of the claim does hold: a cursor with the
wrong component count appends nothing. -/
theorem C1_after_predicate_not_lexicographic :
    satisfiesAfterWhere (fun c => if c = "a" then [50] else [48]) ["a", "b"]
        [49, 44, 53] = false
    ∧ lexTupleGt [[50], [48]] (compound_pks_from_path [49, 44, 53]) = true
    ∧ (compound_pks_from_path [49, 44, 53]).length = 2
    ∧ afterClausePairs ["a", "b"] [49] = [] := by
  refine ⟨?_, ?_, ?_, ?_⟩ <;> decide

/-- C2: the claim says the progress handler is uninstalled (set back to None)
before `execute` returns in every case, including failures.  The
`sqlite_timelimit` context manager has no try/finally around its `yield`, so
when `conn.execute` raises — e.g. the time-limit cancel surfacing as
`sqlite3.OperationalError: interrupted` — the handler-removal line never
runs and the connection keeps the stale handler; only the success path
removes it. -/
theorem C2_progress_handler_not_removed_on_error :
    (BaseView_execute ⟨none⟩
        (fun _ => .error (.operationalError "interrupted"))).1.progress_handler
      = some ()
    ∧ (BaseView_execute ⟨none⟩ (fun _ => .ok [])).1.progress_handler = none := by
  exact ⟨rfl, rfl⟩

/-- C3 counterexample: on the filter mapping with the single key
`col__unknown`, the builder fails with `KeyError "unknown"` — the dict
subscript miss — and not with an `InvalidSql` error as the claim states. -/
theorem C3_unknown_lookup_keyerror_cex :
    build_where_clauses [("col__unknown", "x")] = .error (.keyError "unknown")
    ∧ (match build_where_clauses [("col__unknown", "x")] with
       | .error (.invalidSql _) => true
       | _ => false) = false := by
  exact ⟨rfl, rfl⟩

/-- C5: `validate_sql_select` accepts exactly the statements that, after
stripping and lowercasing, start with the literal space-terminated
`select ` and nowhere contain the substring `pragma`; every rejection is an
`InvalidSql` error. -/
theorem C5_validate_sql_select_characterization (sql : String) :
    (validate_sql_select sql = .ok () ↔
      (startsWithList ((pyStrip sql.toList).map pyLowerChar) "select ".toList = true
        ∧ containsSub ((pyStrip sql.toList).map pyLowerChar) "pragma".toList = false))
    ∧ (∀ e, validate_sql_select sql = .error e → ∃ m, e = PyErr.invalidSql m) := by
  unfold validate_sql_select
  constructor
  · split_ifs with h1 h2 <;> simp_all
  · intro e
    split_ifs <;> intro h <;> simp_all <;> exact ⟨_, h.symm⟩

/-- C5 witness: the statement `pragma x` is rejected, and the rejection is an
`InvalidSql` error. -/
theorem C5_validate_sql_select_witness :
    ∃ m, PyErr.invalidSql "Statement must begin with SELECT" = PyErr.invalidSql m :=
  (C5_validate_sql_select_characterization "pragma x").2 _ rfl

/-! ### Lemmas about the sort and the builder loop -/

/-- Follows the spec's words (4.4/C3): the ten recognised lookup names. -/
def specLookupNames : List String :=
  ["exact", "contains", "startswith", "endswith", "gt", "gte", "lt", "lte", "glob", "like"]

theorem lookupTemplate_none_iff (l : String) :
    lookupTemplate l = none ↔ l ∉ specLookupNames := by
  unfold lookupTemplate specLookupNames
  split_ifs with h1 h2 h3 h4 h5 h6 h7 h8 h9 h10
  · simp [List.mem_cons, h1]
  · simp [List.mem_cons, h2]
  · simp [List.mem_cons, h3]
  · simp [List.mem_cons, h4]
  · simp [List.mem_cons, h5]
  · simp [List.mem_cons, h6]
  · simp [List.mem_cons, h7]
  · simp [List.mem_cons, h8]
  · simp [List.mem_cons, h9]
  · simp [List.mem_cons, h10]
  · simp [List.mem_cons, h1, h2, h3, h4, h5, h6, h7, h8, h9, h10]

theorem mem_insertPair {x a : String × String} :
    ∀ {l}, a ∈ insertPair x l ↔ a = x ∨ a ∈ l := by
  intro l
  induction l with
  | nil => simp [insertPair]
  | cons y ys ih =>
    by_cases h : pairLeB x y = true
    · simp [insertPair, h, List.mem_cons]
    · simp only [insertPair, h, if_false, Bool.false_eq_true, List.mem_cons, ih]
      tauto

theorem mem_sortPairs {a : String × String} : ∀ {l}, a ∈ sortPairs l ↔ a ∈ l := by
  intro l
  induction l with
  | nil => simp [sortPairs]
  | cons y ys ih => simp [sortPairs, mem_insertPair, ih, List.mem_cons]

theorem length_insertPair (x : String × String) :
    ∀ l, (insertPair x l).length = l.length + 1 := by
  intro l
  induction l with
  | nil => simp [insertPair]
  | cons y ys ih =>
    by_cases h : pairLeB x y = true <;> simp [insertPair, h, ih]

theorem length_sortPairs : ∀ l : List (String × String),
    (sortPairs l).length = l.length := by
  intro l
  induction l with
  | nil => rfl
  | cons y ys ih => simp [sortPairs, length_insertPair, ih]

theorem map_fst_insertPair (x : String × String) :
    ∀ l, (∀ y ∈ l, y.1 ≠ x.1) →
      (insertPair x l).map Prod.fst = insertStr x.1 (l.map Prod.fst) := by
  intro l
  induction l with
  | nil => intro _; simp [insertPair, insertStr]
  | cons y ys ih =>
    intro h
    have hxy : x.1 ≠ y.1 := Ne.symm (h y (List.mem_cons_self y ys))
    have hpair : pairLeB x y = strLtB x.1 y.1 := by
      simp [pairLeB, hxy]
    have hstr : strLeB x.1 y.1 = strLtB x.1 y.1 := by
      simp [strLeB, hxy]
    simp only [insertPair, insertStr, List.map_cons, hpair, hstr]
    by_cases hlt : strLtB x.1 y.1 = true
    · simp [hlt]
    · simp only [hlt, if_false, Bool.false_eq_true, List.map_cons]
      rw [ih fun z hz => h z (List.mem_cons_of_mem y hz)]

theorem map_fst_sortPairs : ∀ args : List (String × String),
    (args.map Prod.fst).Nodup →
      (sortPairs args).map Prod.fst = sortStrings (args.map Prod.fst) := by
  intro args
  induction args with
  | nil => intro _; rfl
  | cons x xs ih =>
    intro h
    simp only [List.map_cons, List.nodup_cons] at h
    obtain ⟨hx, hxs⟩ := h
    have hne : ∀ y ∈ sortPairs xs, y.1 ≠ x.1 := by
      intro y hy he
      exact hx (he ▸ List.mem_map_of_mem Prod.fst (mem_sortPairs.mp hy))
    simp only [sortPairs, sortStrings, List.map_cons]
    rw [map_fst_insertPair x _ hne, ih hxs]

theorem bwcLoop_err_of_unknown :
    ∀ (l : List (String × String)) (i : Nat),
      (∃ kv ∈ l, lookupTemplate (splitOnLastDunder kv.1).2 = none) →
      ∃ k, bwcLoop i l = .error (.keyError k) := by
  intro l
  induction l with
  | nil => intro i h; simp at h
  | cons kv0 rest ih =>
    intro i h
    by_cases h0 : lookupTemplate (splitOnLastDunder kv0.1).2 = none
    · exact ⟨(splitOnLastDunder kv0.1).2, by simp [bwcLoop, h0]⟩
    · obtain ⟨tmpl, htmpl⟩ := Option.ne_none_iff_exists'.mp h0
      have hrest : ∃ kv ∈ rest, lookupTemplate (splitOnLastDunder kv.1).2 = none := by
        obtain ⟨kv, hkv, hnone⟩ := h
        rcases List.mem_cons.mp hkv with rfl | hmem
        · exact absurd hnone h0
        · exact ⟨kv, hmem, hnone⟩
      obtain ⟨k, hk⟩ := ih (i + 1) hrest
      refine ⟨k, ?_⟩
      simp [bwcLoop, htmpl, hk]

/-- C3 (amended): a filter mapping containing a key whose lookup suffix is
not one of the ten recognised names makes `build_where_clauses` fail with a
`KeyError` (the template-dict subscript miss), not `InvalidSql`, and the
handler's except-clause does not catch a `KeyError`, so no structured 400
payload is produced. -/
theorem C3_unknown_lookup_raises_keyerror (args : List (String × String))
    (h : ∃ kv ∈ args, (splitOnLastDunder kv.1).2 ∉ specLookupNames) :
    ∃ k, build_where_clauses args = .error (.keyError k)
      ∧ view_get_catches (.keyError k) = false := by
  obtain ⟨kv, hkv, hun⟩ := h
  have hsorted : ∃ kv ∈ sortPairs args,
      lookupTemplate (splitOnLastDunder kv.1).2 = none :=
    ⟨kv, mem_sortPairs.mpr hkv, (lookupTemplate_none_iff _).mpr hun⟩
  obtain ⟨k, hk⟩ := bwcLoop_err_of_unknown (sortPairs args) 0 hsorted
  exact ⟨k, hk, rfl⟩

/-- C3 witness: the single-key mapping `col__unknown` has an unrecognised
lookup suffix, and the builder fails with an uncaught `KeyError` on it. -/
theorem C3_unknown_lookup_raises_keyerror_witness :
    ∃ k, build_where_clauses [("col__unknown", "x")] = .error (.keyError k)
      ∧ view_get_catches (.keyError k) = false :=
  C3_unknown_lookup_raises_keyerror [("col__unknown", "x")]
    ⟨("col__unknown", "x"), List.mem_singleton.mpr rfl, by decide⟩

/-- Clause strings determined by the keys alone (used to express that the
generated SQL text is value-independent). -/
def keyBits : Nat → List String → List String
  | _, [] => []
  | i, k :: ks =>
    (match lookupTemplate (splitOnLastDunder k).2 with
     | some tmpl => tmpl (splitOnLastDunder k).1 ("p" ++ toString i)
     | none => "") :: keyBits (i + 1) ks

/-- The parameter names `p<i>, p<i+1>, …` produced by the enumerated loop. -/
def paramNames : Nat → Nat → List String
  | _, 0 => []
  | i, n + 1 => ("p" ++ toString i) :: paramNames (i + 1) n

theorem keyBits_length : ∀ (ks : List String) (i), (keyBits i ks).length = ks.length := by
  intro ks
  induction ks with
  | nil => intro i; rfl
  | cons k ks ih => intro i; simp [keyBits, ih]

theorem paramNames_length : ∀ (n i : Nat), (paramNames i n).length = n := by
  intro n
  induction n with
  | zero => intro i; rfl
  | succ m ih => intro i; simp [paramNames, ih]

theorem paramNames_eq_range : ∀ (n i : Nat),
    paramNames i n = (List.range n).map (fun j => "p" ++ toString (i + j)) := by
  intro n
  induction n with
  | zero => intro i; simp [paramNames]
  | succ m ih =>
    intro i
    rw [List.range_succ_eq_map]
    simp only [paramNames, List.map_cons, List.map_map, ih (i + 1)]
    have hp : ∀ j : Nat, "p" ++ toString (i + 1 + j) = "p" ++ toString (i + (j + 1)) := by
      intro j
      have : i + 1 + j = i + (j + 1) := by omega
      rw [this]
    simp [Function.comp_def, hp]

theorem bwcLoop_shape : ∀ (l : List (String × String)) (i : Nat) bits params,
    bwcLoop i l = .ok (bits, params) →
    bits = keyBits i (l.map Prod.fst)
      ∧ params.map Prod.fst = paramNames i l.length := by
  intro l
  induction l with
  | nil =>
    intro i bits params h
    simp only [bwcLoop, Except.ok.injEq, Prod.mk.injEq] at h
    obtain ⟨h1, h2⟩ := h
    subst h1; subst h2
    exact ⟨rfl, rfl⟩
  | cons kv rest ih =>
    intro i bits params h
    obtain ⟨key, value⟩ := kv
    simp only [bwcLoop] at h
    cases htm : lookupTemplate (splitOnLastDunder key).2 with
    | none => rw [htm] at h; simp at h
    | some tmpl =>
      rw [htm] at h
      cases hrec : bwcLoop (i + 1) rest with
      | error e => rw [hrec] at h; simp at h
      | ok br =>
        rw [hrec] at h
        simp only [Except.ok.injEq, Prod.mk.injEq] at h
        obtain ⟨h1, h2⟩ := h
        obtain ⟨hb, hp⟩ := ih (i + 1) br.1 br.2 (by rw [hrec])
        subst h1; subst h2
        constructor
        · simp only [List.map_cons, keyBits, htm]
          rw [hb]
        · simp only [List.map_cons, List.length_cons, paramNames]
          rw [hp]

/-- C9: the generated SQL clause strings depend only on the (sorted) keys —
two successful calls whose sorted key sequences agree produce identical
clause lists regardless of the values — and the builder emits exactly one
parameter per key, named `p0 … p(n-1)`, so every user-supplied value lives
only in the parameter mapping. -/
theorem C9_value_independence (args1 args2 : List (String × String))
    (b1 b2 : List String) (p1 p2 : List (String × SqlVal))
    (hkeys : (sortPairs args1).map Prod.fst = (sortPairs args2).map Prod.fst)
    (h1 : build_where_clauses args1 = .ok (b1, p1))
    (h2 : build_where_clauses args2 = .ok (b2, p2)) :
    b1 = b2
      ∧ p1.map Prod.fst = p2.map Prod.fst
      ∧ b1.length = args1.length
      ∧ p1.length = args1.length
      ∧ p1.map Prod.fst = (List.range args1.length).map (fun j => "p" ++ toString j) := by
  obtain ⟨hb1, hp1⟩ := bwcLoop_shape _ 0 _ _ h1
  obtain ⟨hb2, hp2⟩ := bwcLoop_shape _ 0 _ _ h2
  have hlen : (sortPairs args1).length = (sortPairs args2).length := by
    have := congrArg List.length hkeys
    simpa using this
  have hlen1 : (sortPairs args1).length = args1.length := length_sortPairs args1
  refine ⟨?_, ?_, ?_, ?_, ?_⟩
  · rw [hb1, hb2, hkeys]
  · rw [hp1, hp2, hlen]
  · rw [hb1, keyBits_length]
    simpa using hlen1
  · have := congrArg List.length hp1
    simp only [List.length_map, paramNames_length] at this
    rw [this, hlen1]
  · rw [hp1, hlen1, paramNames_eq_range]
    simp

/-- C9 witness: two one-key filter mappings with the same key `name` and
different values produce the same single clause string and the single
parameter `p0`. -/
theorem C9_value_independence_witness :
    [("\"name\" = :p0")] = [("\"name\" = :p0")]
      ∧ ["p0"] = ["p0"]
      ∧ ([("\"name\" = :p0")] : List String).length = 1
      ∧ ([("p0", SqlVal.s "alice")] : List (String × SqlVal)).length = 1
      ∧ [("p0", SqlVal.s "alice")].map Prod.fst
          = (List.range 1).map (fun j => "p" ++ toString j) := by
  have h := C9_value_independence [("name", "alice")] [("name", "bob")]
    ["\"name\" = :p0"] ["\"name\" = :p0"]
    [("p0", SqlVal.s "alice")] [("p0", SqlVal.s "bob")]
    rfl rfl rfl
  exact ⟨h.1, by simp, h.2.2.1, h.2.2.2.1, h.2.2.2.2⟩

theorem bwcLoop_ok_of_known :
    ∀ (l : List (String × String)) (i : Nat),
      (∀ kv ∈ l, lookupTemplate (splitOnLastDunder kv.1).2 ≠ none) →
      ∃ bits params, bwcLoop i l = .ok (bits, params)
        ∧ bits.length = l.length ∧ params.length = l.length
        ∧ ∀ j kv, l.get? j = some kv →
            ∃ tmpl, lookupTemplate (splitOnLastDunder kv.1).2 = some tmpl
              ∧ bits.get? j
                  = some (tmpl (splitOnLastDunder kv.1).1 ("p" ++ toString (i + j)))
              ∧ params.get? j
                  = some ("p" ++ toString (i + j),
                      if numericOperator (splitOnLastDunder kv.1).2
                          && pyIsdigit (value_convert (splitOnLastDunder kv.1).2 kv.2)
                      then SqlVal.i (parsePyInt (value_convert (splitOnLastDunder kv.1).2 kv.2))
                      else SqlVal.s (value_convert (splitOnLastDunder kv.1).2 kv.2)) := by
  intro l
  induction l with
  | nil =>
    intro i _
    refine ⟨[], [], rfl, rfl, rfl, ?_⟩
    intro j kv h
    simp at h
  | cons kv0 rest ih =>
    intro i hkn
    obtain ⟨key, value⟩ := kv0
    obtain ⟨tmpl0, htm⟩ := Option.ne_none_iff_exists'.mp
      (hkn (key, value) (List.mem_cons_self _ _))
    obtain ⟨bits, params, hrec, hlb, hlp, hidx⟩ :=
      ih (i + 1) fun kv hkv => hkn kv (List.mem_cons_of_mem _ hkv)
    refine ⟨tmpl0 (splitOnLastDunder key).1 ("p" ++ toString i)
            :: bits,
            ("p" ++ toString i,
              if numericOperator (splitOnLastDunder key).2
                  && pyIsdigit (value_convert (splitOnLastDunder key).2 value)
              then SqlVal.i (parsePyInt (value_convert (splitOnLastDunder key).2 value))
              else SqlVal.s (value_convert (splitOnLastDunder key).2 value))
            :: params, ?_, by simp [hlb], by simp [hlp], ?_⟩
    · simp only [bwcLoop, htm, hrec]
    · intro j kv h
      cases j with
      | zero =>
        simp only [List.get?] at h
        injection h with h
        subst h
        refine ⟨tmpl0, htm, ?_, ?_⟩ <;> simp [Nat.add_zero]
      | succ m =>
        simp only [List.get?] at h ⊢
        obtain ⟨tmpl, ht, hb, hp⟩ := hidx m kv h
        have harith : i + 1 + m = i + (m + 1) := by omega
        rw [harith] at hb hp
        exact ⟨tmpl, ht, hb, hp⟩

/-- C7: on a mapping with distinct keys, all of whose lookup suffixes are
recognised, `build_where_clauses` succeeds; the key order it processes is the
lexicographic sorting of the keys; and the `j`-th processed key — split on
its last `__`, defaulting to `exact` — yields the `j`-th clause rendered
from its lookup's template with the column and the parameter name `p<j>`,
and the `j`-th parameter binds `p<j>` to the `%`-transformed value, parsed
as an integer exactly when the lookup is gt/gte/lt/lte and the (transformed)
value consists entirely of digits. -/
theorem C7_build_where_clauses_shape (args : List (String × String))
    (hnd : (args.map Prod.fst).Nodup)
    (hkn : ∀ kv ∈ args, (splitOnLastDunder kv.1).2 ∈ specLookupNames) :
    ∃ bits params, build_where_clauses args = .ok (bits, params)
      ∧ (sortPairs args).map Prod.fst = sortStrings (args.map Prod.fst)
      ∧ bits.length = args.length ∧ params.length = args.length
      ∧ ∀ j kv, (sortPairs args).get? j = some kv →
          ∃ tmpl, lookupTemplate (splitOnLastDunder kv.1).2 = some tmpl
            ∧ bits.get? j = some (tmpl (splitOnLastDunder kv.1).1 ("p" ++ toString j))
            ∧ params.get? j
                = some ("p" ++ toString j,
                    if numericOperator (splitOnLastDunder kv.1).2
                        && pyIsdigit (value_convert (splitOnLastDunder kv.1).2 kv.2)
                    then SqlVal.i (parsePyInt (value_convert (splitOnLastDunder kv.1).2 kv.2))
                    else SqlVal.s (value_convert (splitOnLastDunder kv.1).2 kv.2)) := by
  have hkn' : ∀ kv ∈ sortPairs args, lookupTemplate (splitOnLastDunder kv.1).2 ≠ none := by
    intro kv hkv hnone
    exact (lookupTemplate_none_iff _).mp hnone (hkn kv (mem_sortPairs.mp hkv))
  obtain ⟨bits, params, hok, hlb, hlp, hidx⟩ := bwcLoop_ok_of_known (sortPairs args) 0 hkn'
  refine ⟨bits, params, hok, map_fst_sortPairs args hnd, ?_, ?_, ?_⟩
  · rw [hlb, length_sortPairs]
  · rw [hlp, length_sortPairs]
  · intro j kv h
    obtain ⟨tmpl, ht, hb, hp⟩ := hidx j kv h
    rw [Nat.zero_add] at hb hp
    exact ⟨tmpl, ht, hb, hp⟩

/-- C7 witness: the two-key mapping `b__gt = 10`, `a__contains = x` sorts its
keys to `a__contains, b__gt`; the clauses are rendered in that order with
parameters `p0, p1`; `contains` wraps the value in `%`, and `gt` parses the
all-digit value as the integer 10. -/
theorem C7_build_where_clauses_shape_witness :
    ∃ bits params,
      build_where_clauses [("b__gt", "10"), ("a__contains", "x")] = .ok (bits, params)
        ∧ (sortPairs [("b__gt", "10"), ("a__contains", "x")]).map Prod.fst
            = sortStrings ([("b__gt", "10"), ("a__contains", "x")].map Prod.fst)
        ∧ bits.length = 2 ∧ params.length = 2
        ∧ bits.get? 0 = some ("\"a\" like :p0")
        ∧ params.get? 1 = some ("p1", SqlVal.i 10) := by
  obtain ⟨bits, params, hok, hsort, hlb, hlp, hidx⟩ :=
    C7_build_where_clauses_shape [("b__gt", "10"), ("a__contains", "x")]
      (by decide) (by decide)
  refine ⟨bits, params, hok, hsort, hlb, hlp, ?_, ?_⟩
  · obtain ⟨tmpl, ht, hb, _⟩ := hidx 0 ("a__contains", "x") (by decide)
    rw [hb]
    have : lookupTemplate "contains" = some (fun c p => "\"" ++ c ++ "\" like :" ++ p) := rfl
    have hsp : splitOnLastDunder "a__contains" = ("a", "contains") := by decide
    rw [hsp] at ht
    rw [this] at ht
    injection ht with ht
    rw [hsp]
    rw [← ht]
    rfl
  · obtain ⟨tmpl, ht, _, hp⟩ := hidx 1 ("b__gt", "10") (by decide)
    rw [hp]
    have hsp : splitOnLastDunder "b__gt" = ("b", "gt") := by decide
    rw [hsp]
    rfl

/-- C8: with the over-fetch limit `page_size + 1`, whenever more than
`page_size` rows come back the response exposes exactly the first
`page_size` rows (the fetched list minus its extra last row), and the
next-page cursor row is `rows[-2]` — the second-to-last fetched row, which
is precisely the last row actually returned; when at most `page_size` rows
come back, no cursor is produced and all fetched rows are returned. -/
theorem C8_pagination {α : Type} (allRows : List α) (page_size : Nat)
    (h : 1 ≤ page_size) :
    (page_size < (fetchWithLimit allRows page_size).length →
      (tablePage (fetchWithLimit allRows page_size) page_size).1 = allRows.take page_size
        ∧ (tablePage (fetchWithLimit allRows page_size) page_size).1.length = page_size
        ∧ (fetchWithLimit allRows page_size).length = page_size + 1
        ∧ (tablePage (fetchWithLimit allRows page_size) page_size).1
            = (fetchWithLimit allRows page_size).dropLast
        ∧ (tablePage (fetchWithLimit allRows page_size) page_size).2
            = (fetchWithLimit allRows page_size).get? (page_size - 1)
        ∧ (tablePage (fetchWithLimit allRows page_size) page_size).2
            = (tablePage (fetchWithLimit allRows page_size) page_size).1.getLast?)
    ∧ ((fetchWithLimit allRows page_size).length ≤ page_size →
        (tablePage (fetchWithLimit allRows page_size) page_size).2 = none
          ∧ (tablePage (fetchWithLimit allRows page_size) page_size).1
              = fetchWithLimit allRows page_size) := by
  constructor
  · intro hl
    have hlen : (fetchWithLimit allRows page_size).length = page_size + 1 := by
      have h1 : (fetchWithLimit allRows page_size).length
          = min (page_size + 1) allRows.length := by
        simp [fetchWithLimit]
      omega
    have htake : (tablePage (fetchWithLimit allRows page_size) page_size).1
        = allRows.take page_size := by
      simp only [tablePage, fetchWithLimit, List.take_take]
      congr 1
      omega
    have hlen1 : (tablePage (fetchWithLimit allRows page_size) page_size).1.length
        = page_size := by
      simp only [tablePage, List.length_take]
      omega
    have hcursor : (tablePage (fetchWithLimit allRows page_size) page_size).2
        = (fetchWithLimit allRows page_size).get? (page_size - 1) := by
      simp only [tablePage]
      rw [if_pos hl, hlen]
      congr 1
    refine ⟨htake, hlen1, hlen, ?_, hcursor, ?_⟩
    · rw [List.dropLast_eq_take, hlen]
      simp only [tablePage, Nat.add_sub_cancel]
    · calc (tablePage (fetchWithLimit allRows page_size) page_size).2
          = (fetchWithLimit allRows page_size).get? (page_size - 1) := hcursor
        _ = allRows.get? (page_size - 1) := by
            unfold fetchWithLimit
            exact List.get?_take (by omega)
        _ = (allRows.take page_size).get? (page_size - 1) :=
            (List.get?_take (by omega)).symm
        _ = (tablePage (fetchWithLimit allRows page_size) page_size).1.get?
              (page_size - 1) := by rw [htake]
        _ = (tablePage (fetchWithLimit allRows page_size) page_size).1.get?
              ((tablePage (fetchWithLimit allRows page_size) page_size).1.length - 1) := by
            rw [hlen1]
        _ = (tablePage (fetchWithLimit allRows page_size) page_size).1.getLast? :=
            (List.getLast?_eq_get? _).symm
  · intro hle
    constructor
    · simp only [tablePage]
      rw [if_neg (by omega)]
    · simp only [tablePage]
      exact List.take_of_length_le hle

/-- C8 witness: with `page_size = 1` and three rows, the fetch keeps two
rows, the response is just the first row, and the cursor row is that same
first (and last returned) row; with one row, no cursor is produced. -/
theorem C8_pagination_witness :
    (tablePage (fetchWithLimit [10, 20, 30] 1) 1).1 = [10]
      ∧ (tablePage (fetchWithLimit [10, 20, 30] 1) 1).2 = some 10
      ∧ (tablePage (fetchWithLimit [5] 1) 1).2 = none := by
  have h3 := C8_pagination [10, 20, 30] 1 (by decide)
  have h1 := C8_pagination [5] 1 (by decide)
  refine ⟨(h3.1 (by decide)).1, ?_, (h1.2 (by decide)).1⟩
  rw [(h3.1 (by decide)).2.2.2.2.1]
  rfl

/-- C10: when every request-arg key carries a nonempty value list, the
special/filter partition keeps exactly `value[0]` for each key — the result
is unchanged if every value list is truncated to its first element, so all
subsequent values are ignored, both for special args (prefix `_`, no `__`)
and for the args fed to the WHERE-clause builder. -/
theorem C10_first_value_only (args : List (String × List String))
    (h : ∀ kv ∈ args, kv.2 ≠ []) :
    partitionArgs args = .ok (args.filterMap specialOf, args.filterMap otherOf)
      ∧ partitionArgs args
          = partitionArgs (args.map fun kv => (kv.1, kv.2.take 1)) := by
  induction args with
  | nil => exact ⟨rfl, rfl⟩
  | cons kv rest ih =>
    obtain ⟨key, values⟩ := kv
    have hne : values ≠ [] := h (key, values) (List.mem_cons_self _ _)
    obtain ⟨v0, vs⟩ : ∃ v0 vs, values = v0 :: vs := by
      cases values with
      | nil => exact absurd rfl hne
      | cons a l => exact ⟨a, l, rfl⟩
    obtain ⟨vs, rfl⟩ := vs
    obtain ⟨ih1, ih2⟩ := ih fun kv hkv => h kv (List.mem_cons_of_mem _ hkv)
    by_cases hs : isSpecialKey key = true
    · constructor
      · simp [partitionArgs, ih1, specialOf, otherOf, hs, List.filterMap_cons]
      · simp [partitionArgs, List.map_cons, List.take, hs]
        rw [← ih2]
    · constructor
      · simp [partitionArgs, ih1, specialOf, otherOf, hs, List.filterMap_cons]
      · simp [partitionArgs, List.map_cons, List.take, hs]
        rw [← ih2]

/-- C10 witness: with `_after` carrying values `x, y` and `name` carrying
`a, b`, the partition keeps only `x` and `a`, and truncating the lists to
their first elements leaves the result unchanged. -/
theorem C10_first_value_only_witness :
    partitionArgs [("_after", ["x", "y"]), ("name", ["a", "b"])]
        = .ok ([("_after", "x")], [("name", "a")])
      ∧ partitionArgs [("_after", ["x", "y"]), ("name", ["a", "b"])]
          = partitionArgs [("_after", ["x"]), ("name", ["a"])] := by
  have h := C10_first_value_only [("_after", ["x", "y"]), ("name", ["a", "b"])]
    (by intro kv hkv; fin_cases hkv <;> simp)
  refine ⟨?_, h.2⟩
  rw [h.1]
  rfl

/-- C6: slug resolution.  (A)/(B): a hyphenated slug whose candidate name
(before the final `-`) is in the catalog is split into name and provided
hash; the request is dispatched when the provided hash equals the first
seven characters of the digest and redirected to the canonical path
otherwise.  (C)/(D): when the candidate is unknown — or the slug has no
hyphen — the whole slug is the name: an unknown name is NotFound, a known
one (with no provided hash) always redirects to the canonical path with the
table / extension / .db segments appended.  (E)/(F): a required redirect
produces a 302 whose location preserves the original query string and whose
`Link` header is `<target>; rel=preload`; otherwise the handler is
dispatched with the resolved name and hash. -/
theorem C6_resolve_db_name_characterization (dbs : List (String × DbInfo))
    (db_name : String) (table as_json as_db : Option String) (qs : String) :
    (∀ info, containsSub db_name.toList ['-'] = true →
      lookupDb dbs ⟨(rsplitChar '-' db_name.toList).1⟩ = some info →
      (⟨(rsplitChar '-' db_name.toList).2⟩ : String) = ⟨info.hash.toList.take 7⟩ →
      resolve_db_name dbs db_name table as_json as_db
        = .ok (⟨(rsplitChar '-' db_name.toList).1⟩, ⟨info.hash.toList.take 7⟩, none))
    ∧ (∀ info, containsSub db_name.toList ['-'] = true →
      lookupDb dbs ⟨(rsplitChar '-' db_name.toList).1⟩ = some info →
      (⟨(rsplitChar '-' db_name.toList).2⟩ : String) ≠ ⟨info.hash.toList.take 7⟩ →
      resolve_db_name dbs db_name table as_json as_db
        = .ok (⟨(rsplitChar '-' db_name.toList).1⟩, ⟨info.hash.toList.take 7⟩,
            some (specCanonicalPath ⟨(rsplitChar '-' db_name.toList).1⟩
              ⟨info.hash.toList.take 7⟩ table as_json as_db)))
    ∧ ((containsSub db_name.toList ['-'] = false
          ∨ lookupDb dbs ⟨(rsplitChar '-' db_name.toList).1⟩ = none) →
      lookupDb dbs db_name = none →
      resolve_db_name dbs db_name table as_json as_db
        = .error ("Database not found: " ++ db_name))
    ∧ (∀ info, (containsSub db_name.toList ['-'] = false
          ∨ lookupDb dbs ⟨(rsplitChar '-' db_name.toList).1⟩ = none) →
      lookupDb dbs db_name = some info →
      resolve_db_name dbs db_name table as_json as_db
        = .ok (db_name, ⟨info.hash.toList.take 7⟩,
            some (specCanonicalPath db_name ⟨info.hash.toList.take 7⟩
              table as_json as_db)))
    ∧ (∀ n hsh sr, resolve_db_name dbs db_name table as_json as_db = .ok (n, hsh, some sr) →
      BaseView_get dbs db_name table as_json as_db qs
        = .ok (.inl { status := 302,
                      location := if qs ≠ "" then sr ++ "?" ++ qs else sr,
                      link := "<" ++ (if qs ≠ "" then sr ++ "?" ++ qs else sr)
                        ++ ">; rel=preload" }))
    ∧ (∀ n hsh, resolve_db_name dbs db_name table as_json as_db = .ok (n, hsh, none) →
      BaseView_get dbs db_name table as_json as_db qs = .ok (.inr (n, hsh))) := by
  refine ⟨?_, ?_, ?_, ?_, ?_, ?_⟩
  · intro info hc hl heq
    have heq' : ({ data := (rsplitChar '-' db_name.data).2 } : String)
        = { data := List.take 7 info.hash.data } := heq
    simp only [resolve_db_name, hc, if_true, hl, Option.isSome_some]
    rw [if_neg (by simp [heq'])]
  · intro info hc hl hne
    simp only [resolve_db_name, hc, if_true, hl, Option.isSome_some]
    rw [if_pos (by simpa using hne)]
    cases table <;> cases as_json <;> cases as_db <;>
      simp [specCanonicalPath, String.append_assoc]
  · intro hcase hl
    rcases hcase with hc | hc
    · simp only [resolve_db_name, hc, Bool.false_eq_true, if_false, ite_self, hl]
    · simp only [resolve_db_name, hc, Option.isSome_none, Bool.false_eq_true, if_false,
        ite_self, hl]
  · intro info hcase hl
    rcases hcase with hc | hc
    · simp only [resolve_db_name, hc, Bool.false_eq_true, if_false, hl]
      rw [if_pos (by simp)]
      cases table <;> cases as_json <;> cases as_db <;>
        simp [specCanonicalPath, String.append_assoc]
    · simp only [resolve_db_name, hc, Option.isSome_none, Bool.false_eq_true, if_false,
        ite_self, hl]
      rw [if_pos (by simp)]
      cases table <;> cases as_json <;> cases as_db <;>
        simp [specCanonicalPath, String.append_assoc]
  · intro n hsh sr hres
    simp only [BaseView_get, hres, BaseView_redirect]
  · intro n hsh hres
    simp only [BaseView_get, hres]

/-- C6 witness: a catalog entry `fixtures` with digest starting `a1b2c3d`,
requested as `/fixtures?x=1` (no provided hash), redirects with a 302 to
`/fixtures-a1b2c3d?x=1` carrying the matching preload `Link` header. -/
theorem C6_resolve_db_name_witness :
    BaseView_get [("fixtures", ⟨"a1b2c3d999"⟩)] "fixtures" none none none "x=1"
      = .ok (.inl { status := 302, location := "/fixtures-a1b2c3d?x=1",
                    link := "</fixtures-a1b2c3d?x=1>; rel=preload" }) := by
  have h := C6_resolve_db_name_characterization [("fixtures", ⟨"a1b2c3d999"⟩)]
    "fixtures" none none none "x=1"
  have hres := h.2.2.2.1 ⟨"a1b2c3d999"⟩ (Or.inl (by decide)) rfl
  have hget := h.2.2.2.2.1 _ _ _ hres
  rw [hget]
  rfl

/-! ### Codec lemmas: percent-encoding round trip -/

theorem isSafeByte_ne (b : Nat) (h : isSafeByte b = true) :
    b ≠ 37 ∧ b ≠ 43 ∧ b ≠ 44 ∧ b ≠ 32 := by
  unfold isSafeByte at h
  simp only [Bool.or_eq_true, decide_eq_true_eq] at h
  omega

theorem hexDigitU_ge_48 (n : Nat) : 48 ≤ hexDigitU n := by
  unfold hexDigitU
  split <;> omega

theorem isHexByte_hexDigitU (n : Nat) (h : n < 16) : isHexByte (hexDigitU n) = true := by
  unfold hexDigitU isHexByte
  split <;> simp <;> omega

theorem hexVal_hexDigitU (n : Nat) (h : n < 16) : hexVal (hexDigitU n) = n := by
  unfold hexDigitU hexVal
  split_ifs <;> omega

theorem percentDecode_cons_ne (b : Nat) (t : List Nat) (hb : b ≠ 37) :
    percentDecode (b :: t) = b :: percentDecode t := by
  match t with
  | [] => simp [percentDecode, hb]
  | [x] => simp [percentDecode, hb]
  | x :: y :: t' => simp [percentDecode, hb]

theorem percentDecode_triple (h l : Nat) (t : List Nat)
    (hh : isHexByte h = true) (hl : isHexByte l = true) :
    percentDecode (37 :: h :: l :: t) = (hexVal h * 16 + hexVal l) :: percentDecode t := by
  simp [percentDecode, hh, hl]

theorem quote_plus_cons (b : Nat) (s : List Nat) :
    quote_plus (b :: s) = quoteByte b ++ quote_plus s := by
  simp [quote_plus]

/-- The percent-encoding round trip: `unquote_plus` is a left inverse of
`quote_plus` on genuine byte strings. -/
theorem unquote_plus_quote_plus : ∀ s : List Nat, (∀ b ∈ s, b < 256) →
    unquote_plus (quote_plus s) = s := by
  intro s
  induction s with
  | nil => intro _; rfl
  | cons b s' ih =>
    intro hwf
    have hb : b < 256 := hwf b (List.mem_cons_self _ _)
    have ih' := ih fun x hx => hwf x (List.mem_cons_of_mem _ hx)
    rw [quote_plus_cons]
    unfold unquote_plus at ih' ⊢
    rw [List.map_append]
    by_cases hsafe : isSafeByte b = true
    · obtain ⟨h37, h43, _, _⟩ := isSafeByte_ne b hsafe
      have hq : quoteByte b = [b] := by simp [quoteByte, hsafe]
      rw [hq]
      simp only [List.map_cons, List.map_nil, List.singleton_append]
      rw [if_neg h43, percentDecode_cons_ne b _ h37, ih']
    · by_cases h32 : b = 32
      · subst h32
        have hq : quoteByte 32 = [43] := rfl
        rw [hq]
        rw [show List.map (fun b => if b = 43 then 32 else b) [43] = [32] from rfl]
        rw [List.singleton_append, percentDecode_cons_ne 32 _ (by omega), ih']
      · have hq : quoteByte b = [37, hexDigitU (b / 16), hexDigitU (b % 16)] := by
          simp [quoteByte, hsafe, h32]
        have hdiv : b / 16 < 16 := by omega
        have hmod : b % 16 < 16 := by omega
        rw [hq]
        simp only [List.map_cons, List.map_nil]
        rw [if_neg (by omega)]
        rw [if_neg (by have := hexDigitU_ge_48 (b / 16); omega)]
        rw [if_neg (by have := hexDigitU_ge_48 (b % 16); omega)]
        simp only [List.cons_append, List.nil_append]
        rw [percentDecode_triple _ _ _ (isHexByte_hexDigitU _ hdiv) (isHexByte_hexDigitU _ hmod)]
        rw [hexVal_hexDigitU _ hdiv, hexVal_hexDigitU _ hmod, ih']
        congr 1
        omega

/-! ### Codec lemmas: comma-splitting the joined encoded components -/

theorem comma_not_mem_quoteByte (b : Nat) : 44 ∉ quoteByte b := by
  unfold quoteByte
  split_ifs with hs h32
  · obtain ⟨_, _, h44, _⟩ := isSafeByte_ne b hs
    simp only [List.mem_singleton]
    omega
  · simp
  · have h1 := hexDigitU_ge_48 (b / 16)
    have h2 := hexDigitU_ge_48 (b % 16)
    simp only [List.mem_cons, List.not_mem_nil, or_false]
    push_neg
    refine ⟨by omega, by omega, by omega⟩

theorem comma_not_mem_quote_plus : ∀ s : List Nat, 44 ∉ quote_plus s := by
  intro s
  induction s with
  | nil => simp [quote_plus]
  | cons b s' ih =>
    rw [quote_plus_cons]
    intro hmem
    rcases List.mem_append.mp hmem with hmem | hmem
    · exact comma_not_mem_quoteByte b hmem
    · exact ih hmem

theorem splitOnByte_no_sep : ∀ p : List Nat, 44 ∉ p → splitOnByte 44 p = [p] := by
  intro p
  induction p with
  | nil => intro _; rfl
  | cons b p' ih =>
    intro h
    have hb : b ≠ 44 := fun he => h (he ▸ List.mem_cons_self _ _)
    have hp' := ih fun hm => h (List.mem_cons_of_mem _ hm)
    simp [splitOnByte, hb, hp']

theorem splitOnByte_append_sep : ∀ (p t : List Nat), 44 ∉ p →
    splitOnByte 44 (p ++ 44 :: t) = p :: splitOnByte 44 t := by
  intro p
  induction p with
  | nil => intro t _; simp [splitOnByte]
  | cons b p' ih =>
    intro t h
    have hb : b ≠ 44 := fun he => h (he ▸ List.mem_cons_self _ _)
    have hp' := ih t fun hm => h (List.mem_cons_of_mem _ hm)
    simp [splitOnByte, hb, hp']

theorem splitOnByte_joinBytes : ∀ parts : List (List Nat), parts ≠ [] →
    (∀ p ∈ parts, 44 ∉ p) →
    splitOnByte 44 (joinBytes 44 parts) = parts := by
  intro parts
  induction parts with
  | nil => intro h _; exact absurd rfl h
  | cons p ps ih =>
    intro _ hmem
    cases ps with
    | nil =>
      show splitOnByte 44 (joinBytes 44 [p]) = [p]
      rw [show joinBytes 44 [p] = p from rfl]
      exact splitOnByte_no_sep p (hmem p (List.mem_cons_self _ _))
    | cons q ps' =>
      rw [show joinBytes 44 (p :: q :: ps') = p ++ 44 :: joinBytes 44 (q :: ps') from rfl]
      rw [splitOnByte_append_sep _ _ (hmem p (List.mem_cons_self _ _))]
      rw [ih (by simp) fun r hr => hmem r (List.mem_cons_of_mem _ hr)]

/-! ### Codec lemmas: `str(value)` always renders genuine bytes -/

theorem natDecAux_mem_bound : ∀ (fuel n b : Nat), b ∈ natDecAux fuel n →
    48 ≤ b ∧ b ≤ 57 := by
  intro fuel
  induction fuel with
  | zero => intro n b h; simp [natDecAux] at h
  | succ f ih =>
    intro n b h
    unfold natDecAux at h
    by_cases hn : n = 0
    · simp [hn] at h
    · rw [if_neg hn] at h
      rcases List.mem_append.mp h with h | h
      · exact ih _ _ h
      · simp only [List.mem_singleton] at h
        have := Nat.mod_lt n (show 0 < 10 by omega)
        omega

theorem pyStrBytes_lt_256 (v : PVal) (h : pvalWf v) : ∀ b ∈ pyStrBytes v, b < 256 := by
  cases v with
  | str s => exact h
  | int i =>
    intro b hb
    simp only [pyStrBytes] at hb
    have hdec : ∀ n x, x ∈ natDecBytes n → x < 256 := by
      intro n x hx
      unfold natDecBytes at hx
      by_cases hn : n = 0
      · simp [hn] at hx
        omega
      · rw [if_neg hn] at hx
        have := natDecAux_mem_bound n n x hx
        omega
    by_cases hi : i < 0
    · rw [if_pos hi] at hb
      rcases List.mem_cons.mp hb with rfl | hb
      · omega
      · exact hdec _ _ hb
    · rw [if_neg hi] at hb
      exact hdec _ _ hb

/-- C4 counterexample: the claim's literal equality fails.  (a) For the row
with integer primary-key value 1, decoding yields the string `"1"` (byte 49),
which is not the integer 1 — Python `'1' == 1` is False, and the same holds
for the rowid branch since rowids are integers.  (b) For an empty `pks` list
(with `use_rowid` false) the encoder joins zero components into the empty
token, but the decoder returns `[""]`, not the empty tuple. -/
theorem C4_roundtrip_literal_cex :
    (compound_pks_from_path
        (path_from_row_pks (fun _ => PVal.int 1) ["id"] false)).map PVal.str
      ≠ ["id"].map (fun _ => PVal.int 1)
    ∧ (compound_pks_from_path
        (path_from_row_pks (fun _ => PVal.int 1) [] false)).map PVal.str
      ≠ ([] : List PVal) := by
  refine ⟨?_, ?_⟩ <;> decide

/-- C4 (amended): the cursor codec round-trips up to Python `str`: whenever
`use_rowid` is set or `pks` is nonempty (and row values are genuine byte
strings), decoding the encoded token yields exactly the `str` images of the
row's primary-key values in `pks` order — `[str(rowid)]` in the rowid
case — including values containing commas or special characters, which
percent-encoding protects. -/
theorem C4_roundtrip_string_repr (row : String → PVal) (pks : List String)
    (use_rowid : Bool) (hwf : ∀ pk, pvalWf (row pk))
    (hne : use_rowid = true ∨ pks ≠ []) :
    compound_pks_from_path (path_from_row_pks row pks use_rowid)
      = (if use_rowid then ["rowid"] else pks).map fun pk => pyStrBytes (row pk) := by
  cases use_rowid with
  | true =>
    unfold path_from_row_pks compound_pks_from_path
    rw [if_pos rfl, if_pos rfl]
    rw [splitOnByte_no_sep _ (comma_not_mem_quote_plus _)]
    simp only [List.map_cons, List.map_nil]
    rw [show unquote_plus (quote_plus (pyStrBytes (row "rowid")))
        = pyStrBytes (row "rowid") from
      unquote_plus_quote_plus _ (pyStrBytes_lt_256 _ (hwf "rowid"))]
  | false =>
    have hpks : pks ≠ [] := by
      rcases hne with h | h
      · exact absurd h (by simp)
      · exact h
    unfold path_from_row_pks compound_pks_from_path
    rw [if_neg (by simp), if_neg (by simp)]
    rw [splitOnByte_joinBytes _ (by simpa using hpks)
      (by
        intro p hp
        obtain ⟨pk, _, rfl⟩ := List.mem_map.mp hp
        exact comma_not_mem_quote_plus _)]
    rw [List.map_map]
    apply List.map_congr_left
    intro pk _
    exact unquote_plus_quote_plus _ (pyStrBytes_lt_256 _ (hwf pk))

/-- C4 witness: two primary keys whose shared value is the bytes of `h,i`
(containing a comma, which must be escaped) round-trip exactly to the two
string values. -/
theorem C4_roundtrip_string_repr_witness :
    compound_pks_from_path
        (path_from_row_pks (fun _ => PVal.str [104, 44, 105]) ["a", "b"] false)
      = [[104, 44, 105], [104, 44, 105]] := by
  rw [C4_roundtrip_string_repr (fun _ => PVal.str [104, 44, 105]) ["a", "b"] false
    (fun _ => by intro b hb; fin_cases hb <;> omega) (Or.inr (by simp))]
  rfl
